import Mathlib

/-!
Verification of the session/task/streaming layer of the `ollama-agent`
repository, as a shallow embedding in Lean 4.

Python values parsed from JSON are modelled by the inductive `JsonVal`
(JSON numbers are modelled as integers; no claim depends on float
payloads).  Pure helper functions (`extract_text`,
`validate_reasoning_effort`, preview extraction, the event classifier)
are translated function-by-function from the source.  Stateful
components (the SQLite-backed session store, the YAML task store, the
streaming dispatcher) are modelled as explicit state passing over lists
that mirror the relevant tables/directories, with nondeterministic
inputs (fresh UUIDs) passed as explicit parameters.
-/

/-- Model of a JSON-serializable Python value as produced by `json.loads`:
`None`, `bool`, number (modelled as `Int`), `str`, `list`, `dict`
(association list; `json.loads` produces unique keys). -/
inductive JsonVal where
  | null
  | bool (b : Bool)
  | num (n : Int)
  | str (s : String)
  | arr (items : List JsonVal)
  | obj (fields : List (String × JsonVal))

/-- Model of Python's `str.strip()` (no argument): drop leading and trailing
whitespace characters (modelled as ASCII whitespace). -/
def pyStrip (s : String) : String :=
  String.mk (((s.data.dropWhile Char.isWhitespace).reverse.dropWhile Char.isWhitespace).reverse)

/-- Model of Python's string slicing `s[:n]`: the first `n` characters (code
points) of `s`. -/
def pySlice (s : String) (n : Nat) : String :=
  String.mk (s.data.take n)

/-- Models `content.get("text")` followed by the `isinstance(text_value, str)`
check in `extract_text`: the value of the first `"text"` key when that value
is a string, otherwise `none`. -/
def lookupTextField : List (String × JsonVal) → Option String
  | [] => none
  | (k, v) :: rest =>
      if k = "text" then
        match v with
        | .str t => some t
        | _ => none
      else lookupTextField rest

mutual

/-- Translation of `ollama_agent.utils.extract_text`: best-effort conversion
of agent payload content into plain text.  A string is returned unchanged; a
list is mapped recursively, empty parts dropped, the rest joined with a
single space and stripped; a dict with a string-valued
`"text"` field returns it, else a dict with a `"content"` key recurses into
its value; everything else yields `""`. -/
def extract_text : JsonVal → String
  | .str s => s
  | .arr items => pyStrip (" ".intercalate ((extractList items).filter (fun p => p ≠ "")))
  | .obj fields =>
      match lookupTextField fields with
      | some t => t
      | none => extractContentField fields
  | _ => ""

/-- Maps `extract_text` over the elements of a JSON list (the comprehension
`[extract_text(item) for item in content]`). -/
def extractList : List JsonVal → List String
  | [] => []
  | v :: rest => extract_text v :: extractList rest

/-- Models `if "content" in content: return extract_text(content["content"])`
followed by the fall-through `return ""`: scan for the first `"content"` key
and recurse into its value. -/
def extractContentField : List (String × JsonVal) → String
  | [] => ""
  | (k, v) :: rest => if k = "content" then extract_text v else extractContentField rest

end

/-- Translation of `ALLOWED_REASONING_EFFORTS` from `ollama_agent.utils`. -/
def ALLOWED_REASONING_EFFORTS : List String := ["low", "medium", "high", "disabled"]

/-- Translation of `DEFAULT_REASONING_EFFORT` from `ollama_agent.utils`. -/
def DEFAULT_REASONING_EFFORT : String := "medium"

/-- Translation of `ollama_agent.utils.validate_reasoning_effort`. -/
def validate_reasoning_effort (effort : String) : String :=
  if effort ∈ ALLOWED_REASONING_EFFORTS then effort else DEFAULT_REASONING_EFFORT

theorem extractList_eq_map (items : List JsonVal) :
    extractList items = items.map extract_text := by
  induction items with
  | nil => rfl
  | cons v rest ih => simp [extractList, ih]

theorem lookupTextField_eq_some {fields : List (String × JsonVal)} {t : String} :
    lookupTextField fields = some t ↔ fields.lookup "text" = some (JsonVal.str t) := by
  induction fields with
  | nil => simp [lookupTextField]
  | cons p rest ih =>
      obtain ⟨k, v⟩ := p
      by_cases hk : k = "text"
      · subst hk
        cases v <;> simp [lookupTextField, List.lookup]
      · have hk' : ("text" == k) = false := by
          simp [hk]
          exact fun h => hk h.symm
        simp [lookupTextField, List.lookup, hk, hk', ih]

theorem extractContentField_eq_lookup (fields : List (String × JsonVal)) :
    extractContentField fields =
      match fields.lookup "content" with
      | some v => extract_text v
      | none => "" := by
  induction fields with
  | nil => rfl
  | cons p rest ih =>
      obtain ⟨k, v⟩ := p
      by_cases hk : k = "content"
      · subst hk
        simp [extractContentField, List.lookup]
      · have hk' : ("content" == k) = false := by
          simp [hk]
          exact fun h => hk h.symm
        simp [extractContentField, List.lookup, hk, hk', ih]

/-- C1: `extract_text` is total over JSON-serializable values (it is a total
Lean function) and behaves as specified: a string input is returned
unchanged; a list is mapped recursively with empty results dropped, the
survivors joined with a single space and the result stripped; a dict with a
string-valued `"text"` field returns that field; a dict without one but with
a `"content"` key recurses into its value; numbers, booleans, null and
unrecognized dicts yield `""`. -/
theorem extract_text_spec :
    (∀ s, extract_text (JsonVal.str s) = s) ∧
    (∀ items, extract_text (JsonVal.arr items) =
      pyStrip (" ".intercalate ((items.map extract_text).filter (fun p => p ≠ "")))) ∧
    (∀ fields t, fields.lookup "text" = some (JsonVal.str t) →
      extract_text (JsonVal.obj fields) = t) ∧
    (∀ fields v, (∀ t, fields.lookup "text" ≠ some (JsonVal.str t)) →
      fields.lookup "content" = some v →
      extract_text (JsonVal.obj fields) = extract_text v) ∧
    (∀ fields, (∀ t, fields.lookup "text" ≠ some (JsonVal.str t)) →
      fields.lookup "content" = none →
      extract_text (JsonVal.obj fields) = "") ∧
    extract_text JsonVal.null = "" ∧
    (∀ n, extract_text (JsonVal.num n) = "") ∧
    (∀ b, extract_text (JsonVal.bool b) = "") := by
  refine ⟨fun s => rfl, fun items => ?_, fun fields t h => ?_, fun fields v hnt hc => ?_,
    fun fields hnt hc => ?_, rfl, fun n => rfl, fun b => rfl⟩
  · simp [extract_text, extractList_eq_map]
  · simp [extract_text, lookupTextField_eq_some.mpr h]
  · have htf : lookupTextField fields = none := by
      cases hlt : lookupTextField fields with
      | none => rfl
      | some t' => exact absurd (lookupTextField_eq_some.mp hlt) (hnt t')
    simp [extract_text, htf, extractContentField_eq_lookup, hc]
  · have htf : lookupTextField fields = none := by
      cases hlt : lookupTextField fields with
      | none => rfl
      | some t' => exact absurd (lookupTextField_eq_some.mp hlt) (hnt t')
    simp [extract_text, htf, extractContentField_eq_lookup, hc]

/-- Witness for C1 at the spec's concrete examples. -/
theorem extract_text_spec_witness :
    extract_text (JsonVal.str "hello") = "hello" ∧
    extract_text (JsonVal.arr [JsonVal.obj [("text", JsonVal.str "a")],
      JsonVal.obj [("text", JsonVal.str "b")]]) = "a b" ∧
    extract_text (JsonVal.obj [("content", JsonVal.obj [("text", JsonVal.str "x")])]) = "x" ∧
    extract_text (JsonVal.num 42) = "" := by
  refine ⟨extract_text_spec.1 "hello", ?_, ?_, extract_text_spec.2.2.2.2.2.2.1 42⟩
  · have h := extract_text_spec.2.1 [JsonVal.obj [("text", JsonVal.str "a")],
      JsonVal.obj [("text", JsonVal.str "b")]]
    rw [h]
    rfl
  · have h := extract_text_spec.2.2.2.1 [("content", JsonVal.obj [("text", JsonVal.str "x")])]
      (JsonVal.obj [("text", JsonVal.str "x")]) (by intro t; simp [List.lookup]) (by rfl)
    rw [h]
    rfl

/-- C10: `validate_reasoning_effort` always returns a member of the closed
four-value enum, returning an allowed input unchanged and normalizing every
other input to the default `"medium"`. -/
theorem validate_reasoning_effort_spec (effort : String) :
    validate_reasoning_effort effort ∈ ALLOWED_REASONING_EFFORTS ∧
    (effort ∈ ALLOWED_REASONING_EFFORTS → validate_reasoning_effort effort = effort) ∧
    (effort ∉ ALLOWED_REASONING_EFFORTS →
      validate_reasoning_effort effort = DEFAULT_REASONING_EFFORT) := by
  unfold validate_reasoning_effort
  by_cases h : effort ∈ ALLOWED_REASONING_EFFORTS
  · simp [h]
  · simp [h]
    decide

/-- Witness for C10: an allowed value is preserved, an invalid one is
normalized to the default. -/
theorem validate_reasoning_effort_spec_witness :
    validate_reasoning_effort "disabled" = "disabled" ∧
    validate_reasoning_effort "turbo" = "medium" :=
  ⟨(validate_reasoning_effort_spec "disabled").2.1 (by decide),
   (validate_reasoning_effort_spec "turbo").2.2 (by decide)⟩

/-- Single-quote character, used by the model of Python `repr` on strings. -/
def singleQuote : String := String.mk [Char.ofNat 39]

/-- Double-quote character, used by the model of Python `repr` on strings. -/
def doubleQuote : String := String.mk [Char.ofNat 34]

/-- Model of Python `repr` on a string: single-quoted, switching to double
quotes when the string contains a single quote but no double quote.  Escape
expansion inside the string is not modelled (no claim depends on it). -/
def pyReprStr (s : String) : String :=
  if s.data.contains (Char.ofNat 39) && !(s.data.contains (Char.ofNat 34)) then
    doubleQuote ++ s ++ doubleQuote
  else
    singleQuote ++ s ++ singleQuote

mutual

/-- Model of Python `repr` on a value produced by `json.loads` (used by
`str` on containers): `None`/`True`/`False`, decimal integers, quoted
strings, bracketed lists and braced dicts. -/
def pyRepr : JsonVal → String
  | .null => "None"
  | .bool b => if b then "True" else "False"
  | .num n => toString n
  | .str s => pyReprStr s
  | .arr items => "[" ++ ", ".intercalate (pyReprList items) ++ "]"
  | .obj fields => "\x7b" ++ ", ".intercalate (pyReprFields fields) ++ "\x7d"

/-- Elementwise `pyRepr` over a JSON list. -/
def pyReprList : List JsonVal → List String
  | [] => []
  | v :: rest => pyRepr v :: pyReprList rest

/-- Per-entry `key: value` reprs of a JSON dict. -/
def pyReprFields : List (String × JsonVal) → List String
  | [] => []
  | (k, v) :: rest => (pyReprStr k ++ ": " ++ pyRepr v) :: pyReprFields rest

end

/-- Model of Python `str()` on a value produced by `json.loads`: a string is
returned as-is, every other value falls back to its `repr`. -/
def pyStr : JsonVal → String
  | .str s => s
  | v => pyRepr v

/-- Model of the stored first-message payload as consumed by
`SessionManager._extract_preview_text`: `empty` covers a missing (`NULL`) or
empty-string blob (falsy in Python), `invalid raw` a blob rejected by
`json.loads` (the raw text is kept for fidelity), `valid v` a successfully
parsed JSON value. -/
inductive MessageBlob where
  | empty
  | invalid (raw : String)
  | valid (v : JsonVal)

/-- Models `message_data.get("content") if isinstance(message_data, dict)
else message_data` in `_extract_preview_text`.  A missing `"content"` key
gives Python `None`, modelled by `JsonVal.null` (`extract_text` sends both
to `""`). -/
def previewContent : JsonVal → JsonVal
  | .obj fields => (fields.lookup "content").getD JsonVal.null
  | v => v

/-- Translation of `SessionManager._extract_preview_text`. -/
def extract_preview_text (blob : MessageBlob) : String :=
  match blob with
  | .empty => "No messages"
  | .invalid _ => "No content"
  | .valid v =>
      let t := extract_text (previewContent v)
      if t ≠ "" then pySlice t 50 else pySlice (pyStr v) 50

/-- C4: preview derivation — a missing or empty first-message blob yields the
sentinel `"No messages"`, a blob that fails to parse as JSON yields the
sentinel `"No content"`, and otherwise the `content` sub-field is run
through `extract_text` and truncated to 50 characters, so an extracted text
longer than 50 characters yields a preview of exactly 50 characters. -/
theorem extract_preview_text_spec :
    extract_preview_text MessageBlob.empty = "No messages" ∧
    (∀ raw, extract_preview_text (MessageBlob.invalid raw) = "No content") ∧
    (∀ v, extract_text (previewContent v) ≠ "" →
      extract_preview_text (MessageBlob.valid v) =
        pySlice (extract_text (previewContent v)) 50) ∧
    (∀ v, 50 < (extract_text (previewContent v)).length →
      extract_preview_text (MessageBlob.valid v) =
        pySlice (extract_text (previewContent v)) 50 ∧
      (extract_preview_text (MessageBlob.valid v)).length = 50) := by
  refine ⟨rfl, fun raw => rfl, fun v hne => by simp [extract_preview_text, hne],
    fun v h => ?_⟩
  have hne : extract_text (previewContent v) ≠ "" := by
    intro he
    rw [he] at h
    exact absurd h (by decide)
  constructor
  · simp [extract_preview_text, hne]
  · have hlen : (pySlice (extract_text (previewContent v)) 50).length = 50 := by
      have h2 : (pySlice (extract_text (previewContent v)) 50).length =
          min 50 (extract_text (previewContent v)).length := List.length_take _ _
      omega
    simp [extract_preview_text, hne, hlen]

/-- Witness for C4: a 60-character extracted text is cut to exactly 50. -/
theorem extract_preview_text_spec_witness :
    extract_preview_text (MessageBlob.valid
      (JsonVal.obj [("content", JsonVal.str "abcdefghijklmnopqrstuvwxyzabcdefghijklmnopqrstuvwxyzabcdefgh")])) =
      "abcdefghijklmnopqrstuvwxyzabcdefghijklmnopqrstuvwx" ∧
    extract_preview_text MessageBlob.empty = "No messages" ∧
    extract_preview_text (MessageBlob.invalid "not json") = "No content" := by
  refine ⟨?_, extract_preview_text_spec.1, extract_preview_text_spec.2.1 "not json"⟩
  have h := (extract_preview_text_spec.2.2.2
    (JsonVal.obj [("content", JsonVal.str "abcdefghijklmnopqrstuvwxyzabcdefghijklmnopqrstuvwxyzabcdefgh")])
    (by decide)).1
  rw [h]
  rfl

/-- Row of the `agent_sessions` table (schema consumed by this layer):
session id plus creation/update timestamps, modelled as naturals (the
schema's `DEFAULT CURRENT_TIMESTAMP` makes them non-null). -/
structure SessionRow where
  session_id : String
  created_at : Nat
  updated_at : Nat
deriving DecidableEq

/-- Row of the `agent_messages` table: owning session id, serialized payload
(modelled at the granularity `_extract_preview_text` consumes it) and a
creation timestamp. -/
structure MessageRow where
  session_id : String
  message_data : MessageBlob
  created_at : Nat

/-- State of a `SessionManager` instance together with its backing store:
the two tables, the current `session_id` attribute, and whether the
database file exists (`storage_path.exists()`). -/
structure SessionState where
  sessions : List SessionRow
  messages : List MessageRow
  session_id : Option String
  storageExists : Bool

/-- Translation of `SessionManager.reset_session`: bind a freshly generated
id (the `uuid.uuid4()` draw is passed in as `newId`) as current and return
it.  Constructing the `SQLiteSession` creates the database file, so the
store exists afterwards; no stored data is touched. -/
def reset_session (st : SessionState) (newId : String) : SessionState × String :=
  ({ st with session_id := some newId, storageExists := true }, newId)

/-- Translation of `SessionManager.delete_session`: no-op returning `False`
when the database file does not exist; otherwise delete the message and
session rows for the id and, when the deleted id is the current session,
reset to a fresh session before returning `True`. -/
def delete_session (st : SessionState) (sid : String) (newId : String) :
    SessionState × Bool :=
  if st.storageExists = false then (st, false)
  else
    let st' : SessionState :=
      { st with
        messages := st.messages.filter (fun m => m.session_id ≠ sid),
        sessions := st.sessions.filter (fun s => s.session_id ≠ sid) }
    if st.session_id = some sid then ((reset_session st' newId).1, true)
    else (st', true)

/-- C2: deleting the session bound as current (with the store present, as
`__init__`'s `reset_session` guarantees) leaves a non-null current session
id that differs from the deleted one, provided the freshly drawn UUID
differs from the deleted id (UUID collision is the only exception). -/
theorem delete_current_session_resets (st : SessionState) (sid newId : String)
    (hstore : st.storageExists = true)
    (hcur : st.session_id = some sid)
    (hfresh : newId ≠ sid) :
    (delete_session st sid newId).1.session_id ≠ none ∧
    (delete_session st sid newId).1.session_id ≠ some sid := by
  simp [delete_session, reset_session, hstore, hcur, hfresh]

/-- Witness for C2 on a concrete one-session store. -/
theorem delete_current_session_resets_witness :
    (delete_session
      { sessions := [{ session_id := "a", created_at := 0, updated_at := 0 }],
        messages := [], session_id := some "a", storageExists := true }
      "a" "b").1.session_id ≠ none ∧
    (delete_session
      { sessions := [{ session_id := "a", created_at := 0, updated_at := 0 }],
        messages := [], session_id := some "a", storageExists := true }
      "a" "b").1.session_id ≠ some "a" :=
  delete_current_session_resets _ "a" "b" rfl rfl (by decide)

/-- Record returned by `SessionManager.list_sessions` for one session: the
dict built from the SQL row.  `first_message`/`last_message` carry the
session's creation/update timestamps (non-null under the schema, so the
`or "Unknown"` fallback never fires). -/
structure SessionRecord where
  session_id : String
  message_count : Nat
  first_message : Nat
  last_message : Nat
  preview : String

/-- Models the scalar subquery `SELECT message_data ... ORDER BY created_at
ASC LIMIT 1`: the message row with the smallest creation timestamp, if any
(ties broken arbitrarily, as SQLite does). -/
def earliestMessage : List MessageRow → Option MessageRow
  | [] => none
  | m :: rest =>
      match earliestMessage rest with
      | none => some m
      | some m' => if m'.created_at < m.created_at then some m' else some m

/-- The record `list_sessions` builds for one session row: `message_count`
counts the rows the outer join matches (zero matches leave `COUNT(m.id)` at
0), and the preview comes from the earliest message blob (SQL `NULL` when
the session has no messages, which Python treats as falsy). -/
def mkSessionRecord (msgs : List MessageRow) (s : SessionRow) : SessionRecord :=
  let rel := msgs.filter (fun m => m.session_id = s.session_id)
  { session_id := s.session_id,
    message_count := rel.length,
    first_message := s.created_at,
    last_message := s.updated_at,
    preview := extract_preview_text (match earliestMessage rel with
      | some m => m.message_data
      | none => MessageBlob.empty) }

/-- The comparison realizing `ORDER BY s.updated_at DESC`. -/
def sessionDescUpdated (a b : SessionRow) : Prop := b.updated_at ≤ a.updated_at

instance : DecidableRel sessionDescUpdated := fun _ _ => Nat.decLe _ _

instance : IsTotal SessionRow sessionDescUpdated :=
  ⟨fun a b => le_total b.updated_at a.updated_at⟩

instance : IsTrans SessionRow sessionDescUpdated :=
  ⟨fun _ _ _ hab hbc => le_trans hbc hab⟩

/-- Translation of `SessionManager.list_sessions`: empty when the database
file does not exist, else one record per session row (`GROUP BY` the
primary key), ordered by `updated_at` descending. -/
def list_sessions (st : SessionState) : List SessionRecord :=
  if st.storageExists = false then []
  else (List.insertionSort sessionDescUpdated st.sessions).map (mkSessionRecord st.messages)

/-- C3: `list_sessions` orders records most-recently-updated first — a
session updated later appears strictly before one updated earlier — and a
session with zero messages still appears, with `message_count = 0` (the
outer join keeps it). -/
theorem list_sessions_spec (st : SessionState) (A B Z : SessionRow)
    (hstore : st.storageExists = true)
    (hA : A ∈ st.sessions) (hB : B ∈ st.sessions)
    (hup : A.updated_at < B.updated_at) (hZ : Z ∈ st.sessions)
    (hzero : st.messages.filter (fun m => m.session_id = Z.session_id) = []) :
    (∃ i j : Nat, i < j ∧
      (∃ rB, (list_sessions st)[i]? = some rB ∧ rB.session_id = B.session_id ∧
        rB.last_message = B.updated_at) ∧
      (∃ rA, (list_sessions st)[j]? = some rA ∧ rA.session_id = A.session_id ∧
        rA.last_message = A.updated_at)) ∧
    (∃ r ∈ list_sessions st, r.session_id = Z.session_id ∧ r.message_count = 0) := by
  have hls : list_sessions st =
      (List.insertionSort sessionDescUpdated st.sessions).map (mkSessionRecord st.messages) := by
    simp [list_sessions, hstore]
  have hperm : (List.insertionSort sessionDescUpdated st.sessions).Perm st.sessions :=
    List.perm_insertionSort _ _
  have hsort : List.Pairwise sessionDescUpdated
      (List.insertionSort sessionDescUpdated st.sessions) :=
    List.sorted_insertionSort _ _
  obtain ⟨i, hi, hgi⟩ := List.mem_iff_getElem.mp (hperm.mem_iff.mpr hB)
  obtain ⟨j, hj, hgj⟩ := List.mem_iff_getElem.mp (hperm.mem_iff.mpr hA)
  have hij : i < j := by
    rcases Nat.lt_trichotomy i j with h | h | h
    · exact h
    · exfalso
      subst h
      rw [hgi] at hgj
      rw [hgj] at hup
      exact lt_irrefl _ hup
    · exfalso
      have hrel := List.pairwise_iff_getElem.mp hsort j i hj hi h
      rw [hgi, hgj] at hrel
      exact absurd hup (not_lt.mpr hrel)
  refine ⟨⟨i, j, hij,
    ⟨mkSessionRecord st.messages B, ?_, rfl, rfl⟩,
    ⟨mkSessionRecord st.messages A, ?_, rfl, rfl⟩⟩, ?_⟩
  · rw [hls, List.getElem?_map, List.getElem?_eq_getElem hi, hgi]
    rfl
  · rw [hls, List.getElem?_map, List.getElem?_eq_getElem hj, hgj]
    rfl
  · refine ⟨mkSessionRecord st.messages Z, ?_, rfl, ?_⟩
    · rw [hls]
      exact List.mem_map_of_mem _ (hperm.mem_iff.mpr hZ)
    · simp [mkSessionRecord, hzero]

/-- Witness for C3 on a concrete store: session `"B"` (updated later, one
message) is listed before session `"A"` (updated earlier, no messages),
which still appears with count 0. -/
theorem list_sessions_spec_witness :
    (∃ i j : Nat, i < j ∧
      (∃ rB, (list_sessions
        { sessions := [{ session_id := "A", created_at := 0, updated_at := 1 },
                       { session_id := "B", created_at := 0, updated_at := 2 }],
          messages := [{ session_id := "B", message_data := MessageBlob.valid (JsonVal.str "hi"),
                         created_at := 3 }],
          session_id := some "B", storageExists := true })[i]? = some rB ∧
        rB.session_id = "B" ∧ rB.last_message = 2) ∧
      (∃ rA, (list_sessions
        { sessions := [{ session_id := "A", created_at := 0, updated_at := 1 },
                       { session_id := "B", created_at := 0, updated_at := 2 }],
          messages := [{ session_id := "B", message_data := MessageBlob.valid (JsonVal.str "hi"),
                         created_at := 3 }],
          session_id := some "B", storageExists := true })[j]? = some rA ∧
        rA.session_id = "A" ∧ rA.last_message = 1)) ∧
    (∃ r ∈ list_sessions
        { sessions := [{ session_id := "A", created_at := 0, updated_at := 1 },
                       { session_id := "B", created_at := 0, updated_at := 2 }],
          messages := [{ session_id := "B", message_data := MessageBlob.valid (JsonVal.str "hi"),
                         created_at := 3 }],
          session_id := some "B", storageExists := true },
      r.session_id = "A" ∧ r.message_count = 0) :=
  list_sessions_spec _
    { session_id := "A", created_at := 0, updated_at := 1 }
    { session_id := "B", created_at := 0, updated_at := 2 }
    { session_id := "A", created_at := 0, updated_at := 1 }
    rfl (by simp) (by simp) (by decide) (by simp) (by rfl)

/-- Model of the `data` attribute of a raw response event, at the
granularity `_raw_event_payloads` inspects it: a reasoning-token delta
(`ResponseReasoningTextDeltaEvent`), a text-token delta
(`ResponseTextDeltaEvent`), or any other object. -/
inductive RawData where
  | reasoning (delta : String)
  | text (delta : String)
  | other

/-- Model of a run item as `_item_event_payloads` inspects it: its `type`
tag and the `name`/`output`/`summary` attributes (`none`/`""` model an
absent attribute, matching the `getattr` defaults; `output` is the
already-`str`-coerced output). -/
structure RunItem where
  type : String
  name : Option String
  output : String
  summary : String

/-- Model of a raw runtime event as `event_payloads` inspects it: its
`type` tag, and the `data`/`item`/`new_agent.name` attributes (`none`
models an absent attribute or one of an unexpected shape). -/
structure RawEvent where
  type : String
  data : Option RawData
  item : Option RunItem
  new_agent_name : Option String

/-- The closed tagged set of classified stream events (the wire protocol
dicts built in `ollama_agent.agent.events`). -/
inductive StreamEvent where
  | text_delta (content : String)
  | reasoning_delta (content : String)
  | tool_call (name : String)
  | tool_output (output : String)
  | reasoning_summary (content : String)
  | agent_update (name : String)
deriving DecidableEq

/-- Translation of `_raw_event_payloads`: a reasoning-token delta with
non-empty text yields `reasoning_delta`, a text-token delta with non-empty
text yields `text_delta`, anything else (including empty deltas) yields
nothing. -/
def raw_event_payloads : Option RawData → List StreamEvent
  | some (.reasoning delta) => if delta ≠ "" then [.reasoning_delta delta] else []
  | some (.text delta) => if delta ≠ "" then [.text_delta delta] else []
  | _ => []

/-- Translation of `_item_event_payloads`: dispatch on the item's `type`
tag (`getattr(item, "type", "")`, so a missing item behaves as tag `""`). -/
def item_event_payloads : Option RunItem → List StreamEvent
  | none => []
  | some it =>
      if it.type = "tool_call_item" then [.tool_call (it.name.getD "unknown")]
      else if it.type = "tool_call_output_item" then [.tool_output it.output]
      else if it.type = "reasoning" then
        (if it.summary ≠ "" then [.reasoning_summary it.summary] else [])
      else []

/-- Translation of `event_payloads`: dispatch on the raw event's declared
category tag, with a default no-op branch. -/
def event_payloads (e : RawEvent) : List StreamEvent :=
  if e.type = "raw_response_event" then raw_event_payloads e.data
  else if e.type = "run_item_stream_event" then item_event_payloads e.item
  else if e.type = "agent_updated_stream_event" then
    [.agent_update (e.new_agent_name.getD "unknown")]
  else []

theorem raw_event_payloads_no_empty_delta (d : Option RawData) (p : StreamEvent)
    (h : p ∈ raw_event_payloads d) :
    (∀ c, p = StreamEvent.text_delta c → c ≠ "") ∧
    (∀ c, p = StreamEvent.reasoning_delta c → c ≠ "") := by
  match d with
  | none => simp [raw_event_payloads] at h
  | some .other => simp [raw_event_payloads] at h
  | some (.reasoning delta) =>
      by_cases hd : delta = ""
      · simp [raw_event_payloads, hd] at h
      · simp [raw_event_payloads, hd] at h
        subst h
        refine ⟨fun c hc => (nomatch hc), fun c hc => ?_⟩
        have hdc : delta = c := by injection hc
        exact hdc ▸ hd
  | some (.text delta) =>
      by_cases hd : delta = ""
      · simp [raw_event_payloads, hd] at h
      · simp [raw_event_payloads, hd] at h
        subst h
        refine ⟨fun c hc => ?_, fun c hc => (nomatch hc)⟩
        have hdc : delta = c := by injection hc
        exact hdc ▸ hd

theorem item_event_payloads_no_delta (i : Option RunItem) (p : StreamEvent)
    (h : p ∈ item_event_payloads i) :
    (∀ c, p = StreamEvent.text_delta c → c ≠ "") ∧
    (∀ c, p = StreamEvent.reasoning_delta c → c ≠ "") := by
  match i with
  | none => simp [item_event_payloads] at h
  | some it =>
      unfold item_event_payloads at h
      by_cases h1 : it.type = "tool_call_item"
      · simp [h1] at h
        subst h
        exact ⟨fun c hc => (nomatch hc), fun c hc => (nomatch hc)⟩
      · by_cases h2 : it.type = "tool_call_output_item"
        · simp [h1, h2] at h
          subst h
          exact ⟨fun c hc => (nomatch hc), fun c hc => (nomatch hc)⟩
        · by_cases h3 : it.type = "reasoning"
          · by_cases h4 : it.summary = ""
            · simp [h1, h2, h3, h4] at h
            · simp [h1, h2, h3, h4] at h
              subst h
              exact ⟨fun c hc => (nomatch hc), fun c hc => (nomatch hc)⟩
          · simp [h1, h2, h3] at h

/-- C5: the event classifier is total (a total Lean function into the closed
`StreamEvent` type), an unrecognized category tag yields nothing, and no
`text_delta` or `reasoning_delta` with empty content is ever emitted. -/
theorem event_payloads_spec (e : RawEvent) :
    (e.type ≠ "raw_response_event" → e.type ≠ "run_item_stream_event" →
      e.type ≠ "agent_updated_stream_event" → event_payloads e = []) ∧
    (∀ p ∈ event_payloads e,
      (∀ c, p = StreamEvent.text_delta c → c ≠ "") ∧
      (∀ c, p = StreamEvent.reasoning_delta c → c ≠ "")) := by
  constructor
  · intro h1 h2 h3
    simp [event_payloads, h1, h2, h3]
  · intro p hp
    unfold event_payloads at hp
    by_cases h1 : e.type = "raw_response_event"
    · simp [h1] at hp
      exact raw_event_payloads_no_empty_delta e.data p hp
    · by_cases h2 : e.type = "run_item_stream_event"
      · simp [h1, h2] at hp
        exact item_event_payloads_no_delta e.item p hp
      · by_cases h3 : e.type = "agent_updated_stream_event"
        · simp [h1, h2, h3] at hp
          subst hp
          exact ⟨fun c hc => (nomatch hc), fun c hc => (nomatch hc)⟩
        · simp [h1, h2, h3] at hp

/-- Concrete raw event with an unrecognized category tag. -/
def evMystery : RawEvent :=
  { type := "mystery_event", data := none, item := none, new_agent_name := none }

/-- Concrete raw response event carrying a non-empty text-token delta. -/
def evTextHi : RawEvent :=
  { type := "raw_response_event", data := some (RawData.text "hi"), item := none,
    new_agent_name := none }

/-- Witness for C5: an unrecognized tag yields nothing, and the content of
the classified text delta of a concrete raw event is non-empty. -/
theorem event_payloads_spec_witness :
    event_payloads evMystery = [] ∧ "hi" ≠ "" :=
  ⟨(event_payloads_spec evMystery).1 (by decide) (by decide) (by decide),
   ((event_payloads_spec evTextHi).2 (StreamEvent.text_delta "hi")
      (by decide)).1 "hi" rfl⟩

/-- Model of one classified event dict as consumed by
`stream_agent_events`: its `type` tag (`none` models a missing or
non-string tag, which the loop skips) and its remaining payload, opaque to
the dispatcher. -/
structure SEvent where
  type : Option String
  payload : String
deriving DecidableEq

/-- Configuration of one `stream_agent_events` call: which event types have
a (truthy) handler in `handlers`, whether `on_error` was provided, and the
`ignore` set. -/
structure StreamConfig where
  handled : String → Bool
  hasOnError : Bool
  ignored : List String

/-- One observable handler invocation performed by the dispatch loop. -/
inductive DispatchAction where
  | handled (e : SEvent)
  | errorHandled (e : SEvent)
deriving DecidableEq

/-- Translation of `ollama_agent.streaming.stream_agent_events`: the stream
of classified events is modelled as a list, and the side effects of the
loop as the list of handler invocations in execution order.  An `"error"`
event invokes `on_error` (when provided) and breaks out of the loop; a
missing/non-string or ignored type is skipped; otherwise the type's
handler, if any, is invoked. -/
def stream_agent_events (cfg : StreamConfig) : List SEvent → List DispatchAction
  | [] => []
  | e :: rest =>
      match e.type with
      | some t =>
          if t = "error" then (if cfg.hasOnError then [.errorHandled e] else [])
          else if t ∈ cfg.ignored then stream_agent_events cfg rest
          else if cfg.handled t then .handled e :: stream_agent_events cfg rest
          else stream_agent_events cfg rest
      | none => stream_agent_events cfg rest

/-- C6: an `error` event terminates consumption early — the trace of the
whole stream is exactly the trace of the events before the first error,
unchanged (nothing is undone), followed by the `on_error` invocation for
the error event (when an error handler is provided), and nothing after the
error is dispatched to any handler. -/
theorem stream_error_terminates (cfg : StreamConfig) (pre post : List SEvent)
    (err : SEvent) (herr : err.type = some "error")
    (hpre : ∀ e ∈ pre, e.type ≠ some "error") :
    stream_agent_events cfg (pre ++ err :: post) =
      stream_agent_events cfg pre ++
        (if cfg.hasOnError then [DispatchAction.errorHandled err] else []) := by
  induction pre with
  | nil => simp [stream_agent_events, herr]
  | cons e rest ih =>
      have he : e.type ≠ some "error" := hpre e (List.mem_cons_self e rest)
      have ih' := ih (fun x hx => hpre x (List.mem_cons_of_mem e hx))
      cases het : e.type with
      | none => simp [stream_agent_events, het, ih']
      | some t =>
          have ht : ¬ t = "error" := by
            intro h
            rw [h] at het
            exact he het
          by_cases hig : t ∈ cfg.ignored
          · simp [stream_agent_events, het, ht, hig, ih']
          · by_cases hh : cfg.handled t
            · simp [stream_agent_events, het, ht, hig, hh, ih']
            · simp [stream_agent_events, het, ht, hig, hh, ih']

/-- Dispatcher configuration used by the C6 witness: a text handler, an
error handler, nothing ignored. -/
def cfgEx : StreamConfig :=
  { handled := fun t => t == "text_delta", hasOnError := true, ignored := [] }

/-- Witness for C6: two text deltas followed by an error and a further text
delta — both deltas are dispatched and kept, the error handler runs, and
the event after the error is never dispatched. -/
theorem stream_error_terminates_witness :
    stream_agent_events cfgEx
      [{ type := some "text_delta", payload := "Hel" },
       { type := some "text_delta", payload := "lo" },
       { type := some "error", payload := "boom" },
       { type := some "text_delta", payload := "lost" }] =
      [DispatchAction.handled { type := some "text_delta", payload := "Hel" },
       DispatchAction.handled { type := some "text_delta", payload := "lo" },
       DispatchAction.errorHandled { type := some "error", payload := "boom" }] :=
  (stream_error_terminates cfgEx
    [{ type := some "text_delta", payload := "Hel" },
     { type := some "text_delta", payload := "lo" }]
    [{ type := some "text_delta", payload := "lost" }]
    { type := some "error", payload := "boom" } rfl (by decide)).trans (by decide)

/-- The `Task` dataclass from `ollama_agent.tasks`: title, prompt, model and
reasoning effort (typed as the closed enum; arbitrary strings can reach the
field at runtime, validity is stated per-claim). -/
structure TaskData where
  title : String
  prompt : String
  model : String
  reasoning_effort : String
deriving DecidableEq

/-- The four-field dictionary `Task.to_dict` produces and `yaml.safe_dump`
writes.  `yaml.safe_dump`/`yaml.safe_load` round-trip such a dict of plain
strings losslessly (external library, per its contract), so the stored file
is modelled by the dict itself. -/
structure TaskDict where
  title : String
  prompt : String
  model : String
  reasoning_effort : String
deriving DecidableEq

/-- Translation of `Task.to_dict`. -/
def to_dict (t : TaskData) : TaskDict :=
  { title := t.title, prompt := t.prompt, model := t.model,
    reasoning_effort := t.reasoning_effort }

/-- Translation of `Task.from_dict`: the reasoning effort is normalized via
`validate_reasoning_effort` on load. -/
def from_dict (d : TaskDict) : TaskData :=
  { title := d.title, prompt := d.prompt, model := d.model,
    reasoning_effort := validate_reasoning_effort d.reasoning_effort }

/-- The tasks directory, modelled as an association of file stems (task
ids) to parsed file contents. -/
def TaskStore : Type := List (String × TaskDict)

/-- Models `open(task_path, "w")`: writing the file for `id` replaces any
previous file with that name. -/
def storeWrite (store : TaskStore) (id : String) (d : TaskDict) : TaskStore :=
  (id, d) :: (List.filter (fun p => p.1 ≠ id) store)

/-- Translation of `TaskManager.save_task`: compute the id from the title
(`compute_task_id` wraps the stdlib Blake2s digest, modelled as the
parameter `computeId`), write the serialized dict under it, return the id. -/
def save_task (computeId : String → String) (store : TaskStore) (t : TaskData) :
    String × TaskStore :=
  let id := computeId t.title
  (id, storeWrite store id (to_dict t))

/-- Translation of `TaskManager.load_task`: `none` when no file with that
stem exists, else the parsed task with its effort normalized. -/
def load_task (store : TaskStore) (id : String) : Option TaskData :=
  (List.lookup id store).map from_dict

/-- C7: saving a valid task (one whose reasoning effort is already a member
of the closed enum) and loading by the returned id yields the task back
unchanged, whatever the hash function and prior store contents. -/
theorem task_round_trip (computeId : String → String) (store : TaskStore) (t : TaskData)
    (hvalid : t.reasoning_effort ∈ ALLOWED_REASONING_EFFORTS) :
    load_task (save_task computeId store t).2 (save_task computeId store t).1 = some t := by
  have hval : validate_reasoning_effort t.reasoning_effort = t.reasoning_effort :=
    (validate_reasoning_effort_spec t.reasoning_effort).2.1 hvalid
  simp [save_task, load_task, storeWrite, List.lookup, to_dict, from_dict, hval]

/-- Witness for C7 on a concrete task and hash function. -/
theorem task_round_trip_witness :
    load_task
      (save_task (fun _ => "deadbeef") []
        { title := "Deploy App", prompt := "deploy", model := "m", reasoning_effort := "high" }).2
      (save_task (fun _ => "deadbeef") []
        { title := "Deploy App", prompt := "deploy", model := "m", reasoning_effort := "high" }).1 =
      some { title := "Deploy App", prompt := "deploy", model := "m",
             reasoning_effort := "high" } :=
  task_round_trip (fun _ => "deadbeef") []
    { title := "Deploy App", prompt := "deploy", model := "m", reasoning_effort := "high" }
    (by decide)

/-- Scan for the `]` closing a glob character class: the chars before it
and the remainder after it, or `none` when the class is unterminated. -/
def findClose : List Char → Option (List Char × List Char)
  | [] => none
  | ']' :: rest => some ([], rest)
  | c :: rest =>
      match findClose rest with
      | some (body, after) => some (c :: body, after)
      | none => none

/-- Split off the body of a character class at a just-consumed `[`,
mirroring `fnmatch.translate`'s scan: an initial `!` and an immediately
following `]` belong to the body rather than closing it; `none` (no
closing `]`) makes the `[` a literal character. -/
def splitClassBody : List Char → Option (List Char × List Char)
  | '!' :: ']' :: rest => (findClose rest).map (fun p => ('!' :: ']' :: p.1, p.2))
  | '!' :: rest => (findClose rest).map (fun p => ('!' :: p.1, p.2))
  | ']' :: rest => (findClose rest).map (fun p => (']' :: p.1, p.2))
  | rest => findClose rest

/-- Membership of a character in a class body: `x-y` trios denote ranges,
any other char is a literal member (a leading or trailing `-` is literal,
as in `fnmatch`). -/
def memberMatch : List Char → Char → Bool
  | [], _ => false
  | x :: '-' :: y :: rest, c =>
      (decide (x ≤ c) && decide (c ≤ y)) || memberMatch rest c
  | x :: rest, c => (x == c) || memberMatch rest c

/-- One-character class match, honoring a leading `!` negation. -/
def classMatch (body : List Char) (c : Char) : Bool :=
  match body with
  | '!' :: members => !(memberMatch members c)
  | members => memberMatch members c

/-- Fuel-indexed core of the wildcard matcher modelling `pathlib.Path.glob`
pattern matching against a file name (stdlib `fnmatch` semantics): `*`
matches any run of characters, `?` any single character, `[seq]` one
character of the class (with `!` negation, ranges, and `fnmatch`'s scan
making an unterminated `[` literal; `translate`'s removal of reversed
ranges and backslash doubling are not modelled — no claim depends on
them).  The fuel only forces structural termination; `globMatch` always
supplies enough for it never to run out. -/
def globMatchAux : Nat → List Char → List Char → Bool
  | 0, _, _ => false
  | _ + 1, [], cs => cs.isEmpty
  | fuel + 1, p :: ps, cs =>
      if p = '*' then
        match cs with
        | [] => globMatchAux fuel ps []
        | _ :: cs' => globMatchAux fuel ps cs || globMatchAux fuel (p :: ps) cs'
      else if p = '[' then
        match splitClassBody ps with
        | some (body, after) =>
            match cs with
            | [] => false
            | c :: cs' => classMatch body c && globMatchAux fuel after cs'
        | none =>
            match cs with
            | [] => false
            | c :: cs' => (p == c) && globMatchAux fuel ps cs'
      else
        match cs with
        | [] => false
        | c :: cs' => (if p = '?' then true else p == c) && globMatchAux fuel ps cs'

/-- Wildcard matching of pattern `ps` against name `cs`. -/
def globMatch (ps cs : List Char) : Bool :=
  globMatchAux (ps.length + cs.length + 1) ps cs

theorem findClose_length_le : ∀ (ps body after : List Char),
    findClose ps = some (body, after) → after.length ≤ ps.length := by
  intro ps
  induction ps with
  | nil => intro body after h; exact absurd h (by simp [findClose])
  | cons c rest ih =>
      intro body after h
      by_cases hc : c = ']'
      · subst hc
        simp only [findClose, Option.some.injEq, Prod.mk.injEq] at h
        rw [← h.2]
        simp only [List.length_cons]
        omega
      · rw [show findClose (c :: rest) =
            (match findClose rest with
             | some (body, after) => some (c :: body, after)
             | none => none) from by
          cases rest <;> simp [findClose, hc]] at h
        cases hrec : findClose rest with
        | none => rw [hrec] at h; exact absurd h (by simp)
        | some p =>
            rw [hrec] at h
            simp only [Option.some.injEq, Prod.mk.injEq] at h
            have hle := ih p.1 p.2 (by rw [hrec])
            rw [← h.2]
            simp only [List.length_cons]
            omega

theorem splitClassBody_length_le (ps body after : List Char)
    (h : splitClassBody ps = some (body, after)) : after.length ≤ ps.length := by
  unfold splitClassBody at h
  split at h
  · rw [Option.map_eq_some'] at h
    obtain ⟨p, hp, heq⟩ := h
    have hle := findClose_length_le _ _ _ (by rw [hp])
    cases heq
    simp only [List.length_cons]
    omega
  · rw [Option.map_eq_some'] at h
    obtain ⟨p, hp, heq⟩ := h
    have hle := findClose_length_le _ _ _ (by rw [hp])
    cases heq
    simp only [List.length_cons]
    omega
  · rw [Option.map_eq_some'] at h
    obtain ⟨p, hp, heq⟩ := h
    have hle := findClose_length_le _ _ _ (by rw [hp])
    cases heq
    simp only [List.length_cons]
    omega
  · exact findClose_length_le _ _ _ h

theorem globMatchAux_congr : ∀ (f g : Nat) (ps cs : List Char),
    ps.length + cs.length < f → ps.length + cs.length < g →
    globMatchAux f ps cs = globMatchAux g ps cs := by
  intro f
  induction f with
  | zero => intro g ps cs hf _; exact absurd hf (Nat.not_lt_zero _)
  | succ f ih =>
      intro g ps cs hf hg
      cases g with
      | zero => exact absurd hg (Nat.not_lt_zero _)
      | succ g =>
          cases ps with
          | nil => rfl
          | cons p ps' =>
              simp only [List.length_cons] at hf hg
              by_cases hstar : p = '*'
              · subst hstar
                cases cs with
                | nil =>
                    simp only [globMatchAux, if_pos]
                    exact ih g ps' [] (by simp only [List.length_nil] at hf ⊢; omega)
                      (by simp only [List.length_nil] at hg ⊢; omega)
                | cons c cs' =>
                    simp only [globMatchAux, if_pos, List.length_cons] at hf hg ⊢
                    rw [ih g ps' (c :: cs') (by simp only [List.length_cons]; omega)
                        (by simp only [List.length_cons]; omega),
                      ih g ('*' :: ps') cs' (by simp only [List.length_cons]; omega)
                        (by simp only [List.length_cons]; omega)]
              · by_cases hbr : p = '['
                · subst hbr
                  cases hsp : splitClassBody ps' with
                  | none =>
                      cases cs with
                      | nil => simp only [globMatchAux, if_neg hstar]
                      | cons c cs' =>
                          simp only [List.length_cons] at hf hg
                          have h1 : globMatchAux (f + 1) ('[' :: ps') (c :: cs') =
                              ((('[' : Char) == c) && globMatchAux f ps' cs') := by
                            simp only [globMatchAux, if_neg hstar]
                            rw [if_pos trivial, hsp]
                          have h2 : globMatchAux (g + 1) ('[' :: ps') (c :: cs') =
                              ((('[' : Char) == c) && globMatchAux g ps' cs') := by
                            simp only [globMatchAux, if_neg hstar]
                            rw [if_pos trivial, hsp]
                          rw [h1, h2, ih g ps' cs' (by omega) (by omega)]
                  | some q =>
                      have hql := splitClassBody_length_le ps' q.1 q.2 (by rw [hsp])
                      obtain ⟨qbody, qafter⟩ := q
                      cases cs with
                      | nil => simp only [globMatchAux, if_neg hstar]
                      | cons c cs' =>
                          simp only [List.length_cons] at hf hg
                          simp only at hql
                          have h1 : globMatchAux (f + 1) ('[' :: ps') (c :: cs') =
                              (classMatch qbody c && globMatchAux f qafter cs') := by
                            simp only [globMatchAux, if_neg hstar]
                            rw [if_pos trivial, hsp]
                          have h2 : globMatchAux (g + 1) ('[' :: ps') (c :: cs') =
                              (classMatch qbody c && globMatchAux g qafter cs') := by
                            simp only [globMatchAux, if_neg hstar]
                            rw [if_pos trivial, hsp]
                          rw [h1, h2, ih g qafter cs' (by omega) (by omega)]
                · cases cs with
                  | nil => simp only [globMatchAux, if_neg hstar, if_neg hbr]
                  | cons c cs' =>
                      simp only [globMatchAux, if_neg hstar, if_neg hbr,
                        List.length_cons] at hf hg ⊢
                      rw [ih g ps' cs' (by omega) (by omega)]

theorem globMatch_eq_aux (f : Nat) (ps cs : List Char) (h : ps.length + cs.length < f) :
    globMatchAux f ps cs = globMatch ps cs :=
  globMatchAux_congr f (ps.length + cs.length + 1) ps cs h (by omega)

theorem globMatch_nil_pat (cs : List Char) : globMatch [] cs = cs.isEmpty := by
  have h := (globMatch_eq_aux ((cs.length) + 1) [] cs
    (by simp only [List.length_nil]; omega)).symm
  rw [h]
  rfl

theorem globMatch_star_nil (ps : List Char) : globMatch ('*' :: ps) [] = globMatch ps [] := by
  calc globMatch ('*' :: ps) []
      = globMatchAux ((ps.length + 1) + 1) ('*' :: ps) [] :=
        (globMatch_eq_aux _ _ _ (by simp only [List.length_cons, List.length_nil]; omega)).symm
    _ = globMatchAux (ps.length + 1) ps [] := by simp [globMatchAux]
    _ = globMatch ps [] :=
        globMatch_eq_aux _ _ _ (by simp only [List.length_nil]; omega)

theorem globMatch_star_cons (ps cs : List Char) (c : Char) :
    globMatch ('*' :: ps) (c :: cs) =
      (globMatch ps (c :: cs) || globMatch ('*' :: ps) cs) := by
  calc globMatch ('*' :: ps) (c :: cs)
      = globMatchAux ((ps.length + cs.length + 2) + 1) ('*' :: ps) (c :: cs) :=
        (globMatch_eq_aux _ _ _ (by simp only [List.length_cons]; omega)).symm
    _ = (globMatchAux (ps.length + cs.length + 2) ps (c :: cs) ||
         globMatchAux (ps.length + cs.length + 2) ('*' :: ps) cs) := by
        simp [globMatchAux]
    _ = (globMatch ps (c :: cs) || globMatch ('*' :: ps) cs) := by
        rw [globMatch_eq_aux _ _ _ (by simp only [List.length_cons]; omega),
          globMatch_eq_aux _ _ _ (by simp only [List.length_cons]; omega)]

theorem globMatch_lit_nil (p : Char) (ps : List Char) (hstar : p ≠ '*') :
    globMatch (p :: ps) [] = false := by
  calc globMatch (p :: ps) []
      = globMatchAux ((ps.length) + 2) (p :: ps) [] :=
        (globMatch_eq_aux _ _ _ (by simp only [List.length_cons, List.length_nil]; omega)).symm
    _ = false := by
        simp only [globMatchAux, if_neg hstar]
        by_cases hbr : p = '['
        · rw [if_pos hbr]
          rcases splitClassBody ps with _ | ⟨b, a⟩ <;> rfl
        · rw [if_neg hbr]

theorem globMatch_lit_cons (p c : Char) (ps cs : List Char) (hstar : p ≠ '*')
    (hbr : p ≠ '[') :
    globMatch (p :: ps) (c :: cs) =
      ((if p = '?' then true else p == c) && globMatch ps cs) := by
  calc globMatch (p :: ps) (c :: cs)
      = globMatchAux ((ps.length + cs.length + 2) + 1) (p :: ps) (c :: cs) :=
        (globMatch_eq_aux ((ps.length + cs.length + 2) + 1) (p :: ps) (c :: cs)
          (by simp only [List.length_cons]; omega)).symm
    _ = ((if p = '?' then true else p == c) &&
         globMatchAux (ps.length + cs.length + 2) ps cs) := by
        simp only [globMatchAux, if_neg hstar, if_neg hbr]
    _ = ((if p = '?' then true else p == c) && globMatch ps cs) := by
        rw [globMatch_eq_aux (ps.length + cs.length + 2) ps cs (by omega)]

theorem globMatch_literal_append (litP rest : List Char)
    (hfree : ∀ c ∈ litP, c ≠ '*' ∧ c ≠ '?' ∧ c ≠ '[') :
    ∀ s, (globMatch (litP ++ rest) s = true ↔
      ∃ t, s = litP ++ t ∧ globMatch rest t = true) := by
  induction litP with
  | nil =>
      intro s
      simp only [List.nil_append]
      exact ⟨fun h => ⟨s, rfl, h⟩, fun ⟨t, ht, h⟩ => ht ▸ h⟩
  | cons p litP' ih =>
      have hp := hfree p (List.mem_cons_self p litP')
      have hfree' : ∀ c ∈ litP', c ≠ '*' ∧ c ≠ '?' ∧ c ≠ '[' :=
        fun c hc => hfree c (List.mem_cons_of_mem p hc)
      intro s
      cases s with
      | nil =>
          rw [List.cons_append, globMatch_lit_nil p (litP' ++ rest) hp.1]
          constructor
          · intro h
            exact absurd h (by simp)
          · rintro ⟨t, ht, _⟩
            exact absurd ht (by simp)
      | cons c s' =>
          rw [List.cons_append, globMatch_lit_cons p c (litP' ++ rest) s' hp.1 hp.2.2,
            if_neg hp.2.1]
          constructor
          · intro h
            rw [Bool.and_eq_true, beq_iff_eq] at h
            obtain ⟨t, ht, hmt⟩ := (ih hfree' s').mp h.2
            exact ⟨t, by rw [List.cons_append, ← ht, h.1], hmt⟩
          · rintro ⟨t, ht, hmt⟩
            rw [List.cons_append] at ht
            injection ht with h1 h2
            rw [Bool.and_eq_true, beq_iff_eq]
            exact ⟨h1.symm, (ih hfree' s').mpr ⟨t, h2, hmt⟩⟩

theorem globMatch_star_iff (ps : List Char) :
    ∀ s, (globMatch ('*' :: ps) s = true ↔
      ∃ t, t <:+ s ∧ globMatch ps t = true) := by
  intro s
  induction s with
  | nil =>
      rw [globMatch_star_nil]
      constructor
      · intro h
        exact ⟨[], List.suffix_rfl, h⟩
      · rintro ⟨t, ht, hm⟩
        rw [List.suffix_nil.mp ht] at hm
        exact hm
  | cons c s' ih =>
      rw [globMatch_star_cons, Bool.or_eq_true]
      constructor
      · rintro (h | h)
        · exact ⟨c :: s', List.suffix_rfl, h⟩
        · obtain ⟨t, ht, hm⟩ := ih.mp h
          exact ⟨t, ht.trans (List.suffix_cons c s'), hm⟩
      · rintro ⟨t, ht, hm⟩
        rcases List.suffix_cons_iff.mp ht with h | h
        · subst h
          exact Or.inl hm
        · exact Or.inr (ih.mpr ⟨t, h, hm⟩)

theorem globMatch_literal (litP : List Char) (hfree : ∀ c ∈ litP, c ≠ '*' ∧ c ≠ '?' ∧ c ≠ '[')
    (t : List Char) : globMatch litP t = true ↔ t = litP := by
  have h := globMatch_literal_append litP [] hfree t
  rw [List.append_nil] at h
  rw [h]
  constructor
  · rintro ⟨u, hu, hm⟩
    rw [globMatch_nil_pat, List.isEmpty_iff] at hm
    rw [hm, List.append_nil] at hu
    exact hu
  · intro heq
    refine ⟨[], ?_, by rw [globMatch_nil_pat]; rfl⟩
    rw [heq, List.append_nil]

theorem glob_prefix_pattern_iff (pre lit id : List Char)
    (hpre : ∀ c ∈ pre, c ≠ '*' ∧ c ≠ '?' ∧ c ≠ '[') (hlit : ∀ c ∈ lit, c ≠ '*' ∧ c ≠ '?' ∧ c ≠ '[') :
    (globMatch (pre ++ '*' :: lit) (id ++ lit) = true ↔ pre <+: id) := by
  rw [globMatch_literal_append pre ('*' :: lit) hpre]
  constructor
  · rintro ⟨t, ht, hm⟩
    rw [globMatch_star_iff] at hm
    obtain ⟨u, hu, hlitu⟩ := hm
    rw [globMatch_literal lit hlit] at hlitu
    rw [hlitu] at hu
    have hlen : lit.length ≤ t.length := hu.length_le
    have hlen2 : id.length + lit.length = pre.length + t.length := by
      have hc := congrArg List.length ht
      simpa [List.length_append] using hc
    have hple : pre.length ≤ id.length := by omega
    have hpre1 : pre <+: id ++ lit := ⟨t, ht.symm⟩
    have hid : id <+: id ++ lit := ⟨lit, rfl⟩
    rcases List.prefix_or_prefix_of_prefix hpre1 hid with h | h
    · exact h
    · rw [h.eq_of_length_le hple]
  · rintro ⟨r, hr⟩
    refine ⟨r ++ lit, ?_, ?_⟩
    · rw [← hr, List.append_assoc]
    · rw [globMatch_star_iff]
      exact ⟨lit, List.suffix_append r lit, (globMatch_literal lit hlit lit).mpr rfl⟩

/-- Translation of `TaskManager.find_task_by_prefix`: glob the tasks
directory with the pattern `prefix + "*.yaml"`, load each matching stem
(entries of the store always load), return the single match, and `None` on
zero or several matches. -/
def find_task_by_prefix (store : TaskStore) (pre : String) :
    Option (String × TaskData) :=
  match (List.filter
      (fun p => globMatch (pre ++ "*.yaml").data ((p.1 ++ ".yaml").data)) store).map
      (fun p => (p.1, from_dict p.2)) with
  | [m] => some m
  | _ => none

theorem glob_filter_eq_prefix_filter (store : TaskStore) (pre : String)
    (hfree : ∀ c ∈ pre.data, c ≠ '*' ∧ c ≠ '?' ∧ c ≠ '[') :
    List.filter
        (fun p => globMatch (pre ++ "*.yaml").data ((p.1 ++ ".yaml").data)) store =
      List.filter (fun p => pre.data.isPrefixOf p.1.data) store := by
  apply List.filter_congr
  intro p _
  have hdata : (pre ++ "*.yaml").data = pre.data ++ '*' :: ".yaml".data :=
    String.data_append pre "*.yaml"
  have hdata2 : (p.1 ++ ".yaml").data = p.1.data ++ ".yaml".data :=
    String.data_append p.1 ".yaml"
  rw [hdata, hdata2]
  have hiff := glob_prefix_pattern_iff pre.data ".yaml".data p.1.data hfree (by decide)
  have h1 : (globMatch (pre.data ++ '*' :: ".yaml".data) (p.1.data ++ ".yaml".data) = true) ↔
      (pre.data.isPrefixOf p.1.data = true) :=
    hiff.trans List.isPrefixOf_iff_prefix.symm
  cases hg : globMatch (pre.data ++ '*' :: ".yaml".data) (p.1.data ++ ".yaml".data) <;>
    cases hp : pre.data.isPrefixOf p.1.data <;> simp_all

/-- C8 (amended): for a prefix free of glob metacharacters (no `*`, `?` or
`[`), the lookup returns the unique stored task whose id literally starts
with the prefix when exactly one id matches, and `none` when zero or
several match. -/
theorem find_task_by_prefix_spec (store : TaskStore) (pre : String)
    (hfree : ∀ c ∈ pre.data, c ≠ '*' ∧ c ≠ '?' ∧ c ≠ '[') :
    (∀ id d, List.filter (fun p => pre.data.isPrefixOf p.1.data) store = [(id, d)] →
      find_task_by_prefix store pre = some (id, from_dict d)) ∧
    ((List.filter (fun p => pre.data.isPrefixOf p.1.data) store).length ≠ 1 →
      find_task_by_prefix store pre = none) := by
  have hfe := glob_filter_eq_prefix_filter store pre hfree
  constructor
  · intro id d hone
    unfold find_task_by_prefix
    rw [hfe, hone]
    rfl
  · intro hlen
    unfold find_task_by_prefix
    rw [hfe]
    cases hfl : List.filter (fun p => pre.data.isPrefixOf p.1.data) store with
    | nil => rfl
    | cons x xs =>
        cases xs with
        | nil =>
            rw [hfl] at hlen
            exact absurd rfl hlen
        | cons y ys => rfl

/-- Concrete stored task dict used in the C8 theorems. -/
def exDict : TaskDict :=
  { title := "Deploy App", prompt := "do it", model := "m", reasoning_effort := "medium" }

/-- Counterexample for C8 as stated: with a single stored task id
`"aaaa1111"`, the prefix string `"?"` matches via the glob wildcard, and
the prefix string `"[ab]"` matches via the glob character class, even
though zero stored ids literally start with either string — so the lookup
returns a pair where the claim requires `None`. -/
theorem find_task_by_prefix_counterexample :
    find_task_by_prefix [("aaaa1111", exDict)] "?" =
      some ("aaaa1111", from_dict exDict) ∧
    List.filter (fun p => "?".data.isPrefixOf p.1.data) [("aaaa1111", exDict)] = [] ∧
    find_task_by_prefix [("aaaa1111", exDict)] "[ab]" =
      some ("aaaa1111", from_dict exDict) ∧
    List.filter (fun p => "[ab]".data.isPrefixOf p.1.data) [("aaaa1111", exDict)] = [] := by
  refine ⟨by decide, by decide, by decide, by decide⟩

/-- Witness for C8 (amended): a unique literal prefix resolves to its task,
an ambiguous one returns `none`. -/
theorem find_task_by_prefix_spec_witness :
    find_task_by_prefix [("aaaa1111", exDict), ("aaab3333", exDict)] "aaaa" =
      some ("aaaa1111", from_dict exDict) ∧
    find_task_by_prefix [("aaaa1111", exDict), ("aaab3333", exDict)] "aaa" = none :=
  ⟨(find_task_by_prefix_spec [("aaaa1111", exDict), ("aaab3333", exDict)] "aaaa"
      (by decide)).1 "aaaa1111" exDict (by decide),
   (find_task_by_prefix_spec [("aaaa1111", exDict), ("aaab3333", exDict)] "aaa"
      (by decide)).2 (by decide)⟩

/-- The comparison realizing `tasks.sort(key=lambda x: x[1].title)`:
Python compares strings lexicographically by code point, modelled by the
lexicographic order on the character lists. -/
def taskTitleLe (a b : String × TaskData) : Prop := a.2.title.data ≤ b.2.title.data

instance : DecidableRel taskTitleLe :=
  fun a b => inferInstanceAs (Decidable (a.2.title.data ≤ b.2.title.data))

instance : IsTotal (String × TaskData) taskTitleLe := ⟨fun _ _ => le_total _ _⟩

instance : IsTrans (String × TaskData) taskTitleLe := ⟨fun _ _ _ => le_trans⟩

/-- Translation of `TaskManager.list_tasks`: load every `*.yaml` stem in
the directory (entries of the store always load) and sort the `(id, task)`
pairs by raw title with Python's stable sort. -/
def list_tasks (store : TaskStore) : List (String × TaskData) :=
  List.insertionSort taskTitleLe (store.map (fun p => (p.1, from_dict p.2)))

/-- C9 (amended): `list_tasks` returns the stored `(id, task)` pairs sorted
by title in Python's case-sensitive code-point order (`tasks.sort` on the
raw title, where every uppercase letter orders before any lowercase one) —
not case-insensitively. -/
theorem list_tasks_sorted (store : TaskStore) :
    List.Sorted taskTitleLe (list_tasks store) ∧
    (list_tasks store).Perm (store.map (fun p => (p.1, from_dict p.2))) :=
  ⟨List.sorted_insertionSort _ _, List.perm_insertionSort _ _⟩

/-- Model of Python's `str.lower()` for ASCII titles, used to express
case-insensitive alphabetical order. -/
def lowerStr (s : String) : String := String.mk (s.data.map Char.toLower)

/-- Stored dict with title `"Banana"`. -/
def dictBanana : TaskDict :=
  { title := "Banana", prompt := "p", model := "m", reasoning_effort := "medium" }

/-- Stored dict with title `"apple"`. -/
def dictApple : TaskDict :=
  { title := "apple", prompt := "p", model := "m", reasoning_effort := "medium" }

/-- Counterexample for C9 as stated: with stored titles `"apple"` and
`"Banana"`, the code returns `"Banana"` first (code-point order, uppercase
before lowercase), while the case-insensitive alphabetical order the claim
requires puts `"apple"` first (`lower "apple" < lower "Banana"`). -/
theorem list_tasks_counterexample :
    (list_tasks [("b1", dictBanana), ("a1", dictApple)]).map (fun p => p.2.title) =
      ["Banana", "apple"] ∧
    (lowerStr "apple").data < (lowerStr "Banana").data := by
  constructor
  · decide
  · decide
